import Mathlib

/- Verification development for ezstream src/util.c.

   The C functions are shallowly embedded as Lean functions.  Strings are
   modelled as Lean `String`/`List Char` (the inputs are C strings, i.e.
   NUL-free byte sequences; one `Char` stands for one byte).  The iconv
   library is an external collaborator and is modelled as an abstract
   interface (`IconvLib`); the functions of util.c themselves are translated
   line by line from the source. -/

set_option autoImplicit false

namespace Ezstream

/-- Modelled from the spec: the conversion-mode selectors come from util.h,
which is not part of the provided sources.  The spec only requires three
distinct integer values (Transliterate, Ignore, ReplaceWithPlaceholder);
`ICONV_REPLACE` is also the `default` behaviour of the `switch` in
`_iconvert` (util.c lines 76-94). -/
def ICONV_REPLACE : Int := 0

/-- Modelled from the spec: Transliterate mode selector (see `ICONV_REPLACE`). -/
def ICONV_TRANSLIT : Int := 1

/-- Modelled from the spec: Ignore mode selector (see `ICONV_REPLACE`). -/
def ICONV_IGNORE : Int := 2

/-- util.c lines 47-49: the intermediate chunk buffer size. -/
def BUFSIZ : Nat := 1024

/-- util.c lines 76-94: the `switch (mode)` computing `tocode`.
`ICONV_TRANSLIT` appends "//TRANSLIT" to `to`, `ICONV_IGNORE` appends
"//IGNORE", and `ICONV_REPLACE` as well as any other value (the `default`
label) duplicates `to` unchanged. -/
def tocodeFor (mode : Int) (to_ : String) : String :=
  if mode = ICONV_TRANSLIT then to_ ++ "//TRANSLIT"
  else if mode = ICONV_IGNORE then to_ ++ "//IGNORE"
  else to_

/-- Result of one call into the abstract iconv library: how many input
units were consumed, which output bytes were produced into the chunk
buffer, and whether the call failed (`none` = success). -/
inductive IconvErrno where
  | e2big
  | other
deriving DecidableEq, Repr

structure IconvStep where
  consumed : Nat
  out : List Char
  err : Option IconvErrno
deriving Repr

/-- Abstract model of the iconv library used by `_iconvert`:
`open_ok tocode fromcode` says whether `iconv_open(tocode, fromcode)`
succeeds; `step cd input bufavail` is one `iconv(cd, ...)` call on the
remaining `input` with `bufavail` output bytes free; `close_ok` says
whether `iconv_close` succeeds.  A converter descriptor `cd` is identified
by the `(tocode, fromcode)` pair it was opened on. -/
structure IconvLib where
  open_ok : String → String → Bool
  step : String × String → List Char → Nat → IconvStep
  close_ok : Bool

/-- util.c lines 96-98: the three `iconv_open` attempts, in source order;
each pair is `(tocode, fromcode)` exactly as passed to `iconv_open`.
`""` is the implementation's default/native encoding. -/
def openAttempts (tocode from_ : String) : List (String × String) :=
  [(tocode, from_), ("", from_), (tocode, "")]

/-- util.c lines 96-98: the `&&`-chained open sequence stops at the first
successful `iconv_open`; `none` means all three failed. -/
def iconvAcquire (lib : IconvLib) (tocode from_ : String) : Option (String × String) :=
  (openAttempts tocode from_).find? (fun cd => lib.open_ok cd.1 cd.2)

/-- Output accumulator of `_iconvert` (util.c lines 106-108, 129-135):
`content` is the meaningful bytes written so far (everything before the
NUL terminator at `out_pos`), `size` is the allocated size `output_size`
in bytes. -/
structure GrowBuf where
  content : List Char
  size : Nat
deriving DecidableEq, Repr

/-- util.c lines 106-109: `output_size = 1; output = xcalloc(output_size, 1);
out_pos = 0; output[0] = '\x5c0'`. -/
def GrowBuf.init : GrowBuf :=
  { content := [], size := 1 }

/-- util.c lines 129-135: `output_size += count;
output = xreallocarray(output, output_size, 1); memcpy; out_pos += count;
*op = '\x5c0'`.  The chunk's bytes are appended and the allocation grows by
exactly the chunk length. -/
def GrowBuf.append (b : GrowBuf) (chunk : List Char) : GrowBuf :=
  { content := b.content ++ chunk, size := b.size + chunk.length }

/-- util.c lines 114-127: one iteration body of the conversion loop.
`iconv` is called with `bufavail = sizeof(buf) - 1 = 1023`.  On success or
on `E2BIG` the bytes produced are the chunk; on any other error a literal
question mark is additionally stored (`*bp++ = '?'`), and the input cursor
advances by one more unit (`ip++; input_len--`).  Returns the chunk
(`buf[0..count)`, where `count = sizeof(buf) - bufavail - 1`) and the
remaining input. -/
def iconvIter (lib : IconvLib) (cd : String × String) (input : List Char) :
    List Char × List Char :=
  let r := lib.step cd input (BUFSIZ - 1)
  match r.err with
  | none => (r.out, input.drop r.consumed)
  | some IconvErrno.e2big => (r.out, input.drop r.consumed)
  | some IconvErrno.other => (r.out ++ ['?'], input.drop (r.consumed + 1))

/-- util.c lines 110-136: `while (input_len > 0)` conversion loop, with an
explicit fuel parameter bounding the number of iterations (the C loop has
no such bound; under the POSIX iconv contract fuel `input.length` always
suffices, which is the termination argument).  Returns the output
accumulator and the input left unconsumed when the fuel ran out. -/
def iconvLoop (lib : IconvLib) (cd : String × String) :
    Nat → GrowBuf → List Char → GrowBuf × List Char
  | 0, out, input => (out, input)
  | fuel + 1, out, input =>
    match input with
    | [] => (out, [])
    | c :: rest =>
      let step := iconvIter lib cd (c :: rest)
      iconvLoop lib cd fuel (out.append step.1) step.2

/-- util.c lines 59-157 (`HAVE_ICONV` build): the transcoding engine.
Returns the produced string together with the list of `log_syserr`
diagnostics emitted (identified by the function name logged, as in the
source: "iconv_open" at line 100, "iconv_close" at line 139).  A `none`
input models a NULL `in_str` (line 73). -/
def _iconvert (lib : IconvLib) (in_str : Option String) (from_ to_ : String)
    (mode : Int) : String × List String :=
  match in_str with
  | none => ("", [])
  | some s =>
    let tocode := tocodeFor mode to_
    match iconvAcquire lib tocode from_ with
    | none => (s, ["iconv_open"])
    | some cd =>
      let r := iconvLoop lib cd s.toList.length GrowBuf.init s.toList
      if lib.close_ok then (String.mk r.1.content, []) else (s, ["iconv_close"])

/-- POSIX contract of `iconv` assumed by the loop in util.c: a call never
consumes more than the remaining input; a successful call has converted
the whole remaining input; a call failing with `E2BIG` on nonempty input
has converted at least one input unit (the chunk buffer of 1023 bytes has
room for at least one converted unit). -/
structure GoodIconv (lib : IconvLib) : Prop where
  consumed_le : ∀ cd input n, (lib.step cd input n).consumed ≤ input.length
  success_all : ∀ cd input n,
    (lib.step cd input n).err = none → (lib.step cd input n).consumed = input.length
  e2big_progress : ∀ cd input n, input ≠ [] →
    (lib.step cd input n).err = some IconvErrno.e2big →
    1 ≤ (lib.step cd input n).consumed

/-- util.c line 300: `#define SHELLQUOTE_INLEN_MAX 8191UL`. -/
def SHELLQUOTE_INLEN_MAX : Nat := 8191

/-- util.c lines 320-332: the copy loop of `util_shellquote`.
`avail` models the running `out_len` counter (remaining output capacity);
the loop runs `while (*in_p && out_len > 2)`; a single quote or backslash
is preceded by a backslash (using up one extra capacity unit), every byte
copied uses one capacity unit. -/
def shellquoteLoop : List Char → Nat → List Char
  | [], _ => []
  | c :: rest, avail =>
    if avail > 2 then
      if c = '\'' ∨ c = '\\' then '\\' :: c :: shellquoteLoop rest (avail - 2)
      else c :: shellquoteLoop rest (avail - 1)
    else []

/-- util.c lines 302-336: `util_shellquote`.  `out_len` starts as
`min(strlen(in), 8191) * 2 + 2`; the opening quote consumes one capacity
unit before the loop; the closing quote is appended unconditionally. -/
def util_shellquote (s : String) : String :=
  String.mk ('\'' :: shellquoteLoop s.toList
    ((if s.toList.length > SHELLQUOTE_INLEN_MAX then SHELLQUOTE_INLEN_MAX
      else s.toList.length) * 2 + 2 - 1) ++ ['\''])

/-- util.c line 313: the allocation of `util_shellquote` is
`xcalloc(out_len + 1, 1)`, i.e. `min(strlen(in), 8191) * 2 + 3` bytes. -/
def shellquoteBufSize (s : String) : Nat :=
  (if s.toList.length > SHELLQUOTE_INLEN_MAX then SHELLQUOTE_INLEN_MAX
   else s.toList.length) * 2 + 3

/-- The escaping described by the spec for `shell_quote`: every embedded
single quote or backslash is prefixed by a backslash, all other bytes are
copied verbatim (no capacity limit). -/
def specQuote : List Char → List Char
  | [] => []
  | c :: r =>
    if c = '\'' ∨ c = '\\' then '\\' :: c :: specQuote r
    else c :: specQuote r

/-- C `strstr(hay, need)` as the index of the first occurrence of `need`
in `hay` (`none` when there is none; index 0 for an empty needle). -/
def strstrIdx (hay need : List Char) : Option Nat :=
  (List.range (hay.length + 1)).find? (fun i => need.isPrefixOf (hay.drop i))

/-- C `strncat(dst, src, n)`: append the first `n` bytes of `src`. -/
def strncatL (dst src : List Char) (n : Nat) : List Char :=
  dst ++ src.take n

/-- C `strlcat(dst, src, siz)`: append `src`, truncated so that the total
length stays below `siz` (one byte is reserved for the NUL terminator). -/
def strlcatL (dst src : List Char) (siz : Nat) : List Char :=
  dst ++ src.take (siz - 1 - dst.length)

/-- util.c lines 275-298: `util_replacestring`.  Shell-quotes `to_`
unconditionally, allocates `dest` of `strlen(source) + strlen(to_quoted)
+ 1` bytes, and if `from_` occurs in `source` copies the text before the
first occurrence (`strncat`), the quoted replacement (`strlcat`), and the
text after the occurrence (`strlcat`); otherwise copies `source` whole. -/
def util_replacestring (source from_ to_ : String) : String :=
  let to_quoted := (util_shellquote to_).toList
  let src := source.toList
  let dest_size := src.length + to_quoted.length + 1
  match strstrIdx src from_.toList with
  | some i =>
    let dest := strncatL [] src i
    let dest := strlcatL dest to_quoted dest_size
    String.mk (strlcatL dest (src.drop (i + from_.toList.length)) dest_size)
  | none => String.mk (strlcatL [] src dest_size)

/-- C `isspace` (POSIX locale): space, tab, newline, vertical tab, form
feed, carriage return. -/
def isSpaceC (c : Char) : Bool :=
  c = ' ' ∨ c = '\t' ∨ c = '\n' ∨ c = '\x0b' ∨ c = '\x0c' ∨ c = '\r'

/-- Value of a digit string, most significant first. -/
def digitsVal (l : List Char) : Nat :=
  l.foldl (fun a c => a * 10 + (c.toNat - 48)) 0

/-- OpenBSD `strtonum(numstr, minval, maxval, &errstr)` for base 10 (used
by util.c line 375; provided by compat.h, not part of src/): optional
leading whitespace and a single optional sign followed only by digits;
`errstr` is "invalid" for a non-number, "too small" / "too large" for a
value outside `[minval, maxval]`. -/
def strtonum (s : String) (minval maxval : Int) : Except String Int :=
  let cs := s.toList.dropWhile isSpaceC
  let signed : Bool × List Char :=
    match cs with
    | '-' :: r => (true, r)
    | '+' :: r => (false, r)
    | _ => (false, cs)
  if signed.2 = [] ∨ ¬ signed.2.all Char.isDigit then Except.error "invalid"
  else
    let v : Int := if signed.1 then -(digitsVal signed.2 : Int)
                   else (digitsVal signed.2 : Int)
    if v < minval then Except.error "too small"
    else if v > maxval then Except.error "too large"
    else Except.ok v

/-- The caller-supplied output locations of `util_urlparse`
(`char **hostname, unsigned short *port, char **mountname`).  `none` for a
pointer member means it holds no live allocation (never written, or
written and then freed by `xfree`); for `port`, `some n` is whatever
value the location currently holds (the pre-call value, or the value the
parse wrote into it). -/
structure UrlOut where
  hostname : Option String
  port : Option Nat
  mountname : Option String
deriving DecidableEq, Repr

/-- C `strchr(s, c)` as the index of the first occurrence of `c`. -/
def strchrIdx (s : List Char) (c : Char) : Option Nat :=
  s.findIdx? (fun x => x = c)

/-- The C return value of the `strtonum` call: the parsed number, or 0
whenever `errstr` was set (OpenBSD `strtonum` returns 0 on every error). -/
def strtonumRet (r : Except String Int) : Int :=
  match r with
  | Except.ok v => v
  | Except.error _ => 0

/-- util.c lines 338-387: `util_urlparse`.  Returns the C `int` result
(1 success, 0 failure), the final contents of the caller's output
locations, and the `log_error` diagnostics emitted.  `rest` is `p1`
(`url + 7`), `i` the offset of `p2` (first `:`) from `p1`, `afterColon`
the incremented `p2`, `j` the offset of `p3` (first `/`) from it.
`hostsiz <= 1` is `i = 0`; `p3 - p2 >= sizeof(tmpPort)` is `j ≥ 6`;
`strlcpy(tmpPort, p2, (p3 - p2) + 1)` copies exactly the port text.
Line 375 stores `(unsigned short)strtonum(...)` into `*port`
unconditionally, before the `errstr` check — so on the invalid-port
failure path the caller's port location is overwritten with 0. -/
def util_urlparse (url : String) (out0 : UrlOut) : Int × UrlOut × List String :=
  if ¬ ("http://".toList.isPrefixOf url.toList) then
    (0, out0, ["invalid <url>: not an HTTP address"])
  else
    let rest := url.toList.drop 7
    match strchrIdx rest ':' with
    | none => (0, out0, ["invalid <url>: missing port"])
    | some i =>
      if i = 0 then (0, out0, ["invalid <url>: missing host"])
      else
        let host := String.mk (rest.take i)
        let out1 := { out0 with hostname := some host }
        let afterColon := rest.drop (i + 1)
        match strchrIdx afterColon '/' with
        | none =>
          (0, { out1 with hostname := none },
           ["invalid <url>: mountpoint missing, or port number too long"])
        | some j =>
          if j ≥ 6 then
            (0, { out1 with hostname := none },
             ["invalid <url>: mountpoint missing, or port number too long"])
          else
            let tmpPort := String.mk (afterColon.take j)
            let r := strtonum tmpPort 1 65535
            let out2 := { out1 with port := some (strtonumRet r).toNat }
            match r with
            | Except.error errstr =>
              (0, { out2 with hostname := none },
               ["invalid <url>: port: " ++ tmpPort ++ " is " ++ errstr])
            | Except.ok _ =>
              let mount := String.mk (afterColon.drop j)
              (1, { out2 with mountname := some mount }, [])

/-- The failure cases of `parse_stream_url` as the spec names them. -/
inductive UrlErr where
  | InvalidScheme
  | MissingPort
  | MissingHost
  | MalformedMount
  | InvalidPort
deriving DecidableEq, Repr

/-- The spec's contract for `parse_stream_url` (spec section 4.4), stated
with the spec's words: `InvalidScheme` when the string does not begin with
the literal "http://"; `MissingPort` when no `:` occurs after the scheme;
`MissingHost` when the text between the scheme and the `:` is empty;
`MalformedMount` when no `/` is found after the port segment or the port
text exceeds 5 characters; `InvalidPort` when the port text does not parse
as an integer in `[1, 65535]`; otherwise success with the host text
between "http://" and the first `:`, the numeric port, and the mount from
the `/` to the end of the string. -/
def urlparseSpec (url : String) : Except UrlErr (String × Nat × String) :=
  if ¬ ("http://".toList.isPrefixOf url.toList) then Except.error UrlErr.InvalidScheme
  else
    let rest := url.toList.drop 7
    match strchrIdx rest ':' with
    | none => Except.error UrlErr.MissingPort
    | some i =>
      if i = 0 then Except.error UrlErr.MissingHost
      else
        let afterColon := rest.drop (i + 1)
        match strchrIdx afterColon '/' with
        | none => Except.error UrlErr.MalformedMount
        | some j =>
          if j ≥ 6 then Except.error UrlErr.MalformedMount
          else
            match strtonum (String.mk (afterColon.take j)) 1 65535 with
            | Except.error _ => Except.error UrlErr.InvalidPort
            | Except.ok v =>
              Except.ok (String.mk (rest.take i), v.toNat,
                         String.mk (afterColon.drop j))

/-- Association-list filesystem used by the pid-file model: path `p` maps
to file contents.  `fsDel` models `unlink(p)`: every entry for `p` is
removed. -/
def fsDel : List (String × String) → String → List (String × String)
  | [], _ => []
  | e :: rest, p => if e.1 = p then fsDel rest p else e :: fsDel rest p

/-- Create or truncate-and-write path `p` with contents `v`
(C `fopen(p, "w")` and subsequent writes). -/
def fsSet (fs : List (String × String)) (p v : String) : List (String × String) :=
  (p, v) :: fsDel fs p

/-- Contents of path `p`, if the file exists. -/
def fsGet : List (String × String) → String → Option String
  | [], _ => none
  | e :: rest, p => if e.1 = p then some e.2 else fsGet rest p

/-- Process-wide state of the pid-file manager: the filesystem plus the
file-scope statics of util.c lines 51-54 (`pidfile_path`, `pidfile_file`,
`pidfile_pid`, `pidfile_numlocks`) and the number of times
`atexit(_cleanup_pidfile)` has been registered.  An open `FILE *` handle
is identified by the path it writes to; `none` means NULL / closed. -/
structure PidState where
  fs : List (String × String)
  pidfile_path : Option String
  pidfile_file : Option String
  pidfile_pid : Nat
  pidfile_numlocks : Nat
  hooks : Nat
deriving DecidableEq, Repr

/-- util.c lines 168-215: `util_write_pid_file(path)`, for the process
with id `pid`.  The success of the fallible externals is a parameter:
`fopenOk` for `fopen(path, "w")` (line 182), `ioOk` for the
`fprintf`/`fflush`/`flock` chain (lines 190-192), `atexitOk` for `atexit`
(line 197).  Returns the new state and the C `int` result (0 or -1).
A NULL `path` is a no-op success (line 174).  On `fopen` failure no file
is created and the path record is cleared (lines 183-186); the `error:`
label (lines 204-214) unlinks the file, clears path/file/pid and
returns -1. -/
def util_write_pid_file (st : PidState) (pid : Nat) (path : Option String)
    (fopenOk ioOk atexitOk : Bool) : PidState × Int :=
  match path with
  | none => (st, 0)
  | some p =>
    let st1 := { st with pidfile_path := some p }
    if fopenOk = false then
      ({ st1 with pidfile_path := none, pidfile_file := none }, -1)
    else
      let st2 := { st1 with pidfile_file := some p, fs := fsSet st1.fs p "" }
      if ioOk = false then
        ({ st2 with fs := fsDel st2.fs p, pidfile_path := none,
                    pidfile_file := none, pidfile_pid := 0 }, -1)
      else
        let st3 := { st2 with fs := fsSet st2.fs p (toString pid ++ "\n") }
        if st3.pidfile_numlocks = 0 then
          let st4 := { st3 with pidfile_pid := pid }
          if atexitOk = false then
            ({ st4 with fs := fsDel st4.fs p, pidfile_path := none,
                        pidfile_file := none, pidfile_pid := 0 }, -1)
          else
            ({ st4 with hooks := st4.hooks + 1,
                        pidfile_numlocks := st4.pidfile_numlocks + 1 }, 0)
        else (st3, 0)

/-- util.c lines 159-166: the exit hook `_cleanup_pidfile`, run by the
process with id `curpid`: if a pid-file path is recorded and the current
process id equals the recorded `pidfile_pid`, unlink that path and close
the handle.  Returns the new state and the path unlinked (if any). -/
def _cleanup_pidfile (st : PidState) (curpid : Nat) : PidState × Option String :=
  match st.pidfile_path with
  | some p =>
    if curpid = st.pidfile_pid then
      ({ st with fs := fsDel st.fs p, pidfile_file := none }, some p)
    else (st, none)
  | none => (st, none)

/- ------------------------------------------------------------------ -/
/- Helper lemmas and concrete instantiations                           -/
/- ------------------------------------------------------------------ -/

/-- An iconv library in which every `iconv_open` fails (for witnesses). -/
def libAllFail : IconvLib :=
  ⟨fun _ _ => false, fun _ inp _ => ⟨inp.length, inp, none⟩, true⟩

/-- An identity iconv library: every open succeeds and every `iconv` call
converts all remaining input verbatim (for witnesses). -/
def libId : IconvLib :=
  ⟨fun _ _ => true, fun _ inp _ => ⟨inp.length, inp, none⟩, true⟩

/-- Like `libId` but `iconv_close` fails (for witnesses). -/
def libNoClose : IconvLib :=
  ⟨fun _ _ => true, fun _ inp _ => ⟨inp.length, inp, none⟩, false⟩

theorem goodIconv_libId : GoodIconv libId :=
  ⟨fun _ _ _ => Nat.le_refl _, fun _ _ _ _ => rfl,
   fun _ _ _ _ h => by simp [libId] at h⟩

theorem growBuf_append_inv (b : GrowBuf) (chunk : List Char)
    (h : b.size = b.content.length + 1) :
    (b.append chunk).size = (b.append chunk).content.length + 1 := by
  simp [GrowBuf.append, h]
  omega

/- ------------------------------------------------------------------ -/
/- Claim theorems                                                      -/
/- ------------------------------------------------------------------ -/

/-- C1: for every non-null input string, encodings and mode, if all three
`iconv_open` attempts fail then `_iconvert` logs the system error (the
"iconv_open" diagnostic) and returns a copy of the original input
unchanged; likewise if `iconv_close` fails after the conversion loop it
logs "iconv_close", discards the partial output and returns a copy of the
original input.  In both cases the result is exactly the input (no
partial result) and the function returns normally. -/
theorem iconvert_open_close_failure_degrades (lib : IconvLib)
    (s from_ to_ : String) (mode : Int) :
    ((∀ cd ∈ openAttempts (tocodeFor mode to_) from_,
        lib.open_ok cd.1 cd.2 = false) →
      _iconvert lib (some s) from_ to_ mode = (s, ["iconv_open"])) ∧
    (lib.close_ok = false →
      ∀ cd, iconvAcquire lib (tocodeFor mode to_) from_ = some cd →
      _iconvert lib (some s) from_ to_ mode = (s, ["iconv_close"])) := by
  constructor
  · intro hall
    have hnone : iconvAcquire lib (tocodeFor mode to_) from_ = none := by
      unfold iconvAcquire
      apply List.find?_eq_none.mpr
      intro cd hcd
      simp [hall cd hcd]
    simp [_iconvert, hnone]
  · intro hclose cd hcd
    simp [_iconvert, hcd, hclose]

theorem iconvert_open_close_failure_degrades_witness :
    ((∀ cd ∈ openAttempts (tocodeFor 0 "B") "A",
        libAllFail.open_ok cd.1 cd.2 = false) ∧
      _iconvert libAllFail (some "ab") "A" "B" 0 = ("ab", ["iconv_open"])) ∧
    (libNoClose.close_ok = false ∧
      _iconvert libNoClose (some "ab") "A" "B" 0 = ("ab", ["iconv_close"])) :=
  ⟨⟨by decide,
    (iconvert_open_close_failure_degrades libAllFail "ab" "A" "B" 0).1 (by decide)⟩,
   ⟨rfl,
    (iconvert_open_close_failure_degrades libNoClose "ab" "A" "B" 0).2 rfl
      ("B", "A") (by decide)⟩⟩

/-- C2: `_iconvert` acquires its converter through `iconvAcquire` over
`openAttempts (tocodeFor mode to_) from_` (definition of `_iconvert`):
the qualified target carries the "//TRANSLIT" suffix in Transliterate
mode, the "//IGNORE" suffix in Ignore mode and is unmodified in
ReplaceWithPlaceholder mode, and the three open attempts — (source →
qualified target), (source → default encoding ""), (default encoding →
qualified target) — are tried in that order, stopping at the first
success. -/
theorem iconvert_three_step_fallback (lib : IconvLib)
    (from_ to_ : String) (mode : Int) :
    (mode = ICONV_TRANSLIT → tocodeFor mode to_ = to_ ++ "//TRANSLIT") ∧
    (mode = ICONV_IGNORE → tocodeFor mode to_ = to_ ++ "//IGNORE") ∧
    (mode = ICONV_REPLACE → tocodeFor mode to_ = to_) ∧
    (openAttempts (tocodeFor mode to_) from_ =
      [(tocodeFor mode to_, from_), ("", from_), (tocodeFor mode to_, "")]) ∧
    (lib.open_ok (tocodeFor mode to_) from_ = true →
      iconvAcquire lib (tocodeFor mode to_) from_ =
        some (tocodeFor mode to_, from_)) ∧
    (lib.open_ok (tocodeFor mode to_) from_ = false →
      lib.open_ok "" from_ = true →
      iconvAcquire lib (tocodeFor mode to_) from_ = some ("", from_)) ∧
    (lib.open_ok (tocodeFor mode to_) from_ = false →
      lib.open_ok "" from_ = false →
      lib.open_ok (tocodeFor mode to_) "" = true →
      iconvAcquire lib (tocodeFor mode to_) from_ =
        some (tocodeFor mode to_, "")) := by
  refine ⟨?_, ?_, ?_, rfl, ?_, ?_, ?_⟩
  · intro h
    subst h
    simp [tocodeFor, ICONV_TRANSLIT, ICONV_IGNORE]
  · intro h
    subst h
    norm_num [tocodeFor, ICONV_TRANSLIT, ICONV_IGNORE]
  · intro h
    subst h
    norm_num [tocodeFor, ICONV_TRANSLIT, ICONV_IGNORE, ICONV_REPLACE]
  · intro h1
    simp [iconvAcquire, openAttempts, List.find?, h1]
  · intro h1 h2
    simp [iconvAcquire, openAttempts, List.find?, h1, h2]
  · intro h1 h2 h3
    simp [iconvAcquire, openAttempts, List.find?, h1, h2, h3]

theorem iconvert_three_step_fallback_witness :
    ((1 : Int) = ICONV_TRANSLIT ∧
      tocodeFor 1 "UTF-8" = "UTF-8" ++ "//TRANSLIT") ∧
    (libAllFail.open_ok (tocodeFor 1 "UTF-8") "A" = false ∧
      libAllFail.open_ok "" "A" = false ∧
      libAllFail.open_ok (tocodeFor 1 "UTF-8") "" = false) ∧
    (libId.open_ok (tocodeFor 1 "UTF-8") "A" = true ∧
      iconvAcquire libId (tocodeFor 1 "UTF-8") "A" =
        some (tocodeFor 1 "UTF-8", "A")) :=
  ⟨⟨rfl, (iconvert_three_step_fallback libId "A" "UTF-8" 1).1 rfl⟩,
   ⟨rfl, rfl, rfl⟩,
   ⟨rfl, (iconvert_three_step_fallback libId "A" "UTF-8" 1).2.2.2.2.1 rfl⟩⟩

/-- C10: any mode value other than `ICONV_TRANSLIT` and `ICONV_IGNORE`
falls into the `default` label of the switch in `_iconvert` and behaves
exactly as `ICONV_REPLACE`: the target encoding name is used unmodified
and — as in every mode — a converter error other than `E2BIG` makes the
loop body emit a literal question mark and advance the input cursor by
one unit. -/
theorem iconvert_unknown_mode_defaults_to_replace (lib : IconvLib)
    (in_str : Option String) (from_ to_ : String) (mode : Int)
    (h1 : mode ≠ ICONV_TRANSLIT) (h2 : mode ≠ ICONV_IGNORE) :
    tocodeFor mode to_ = to_ ∧
    _iconvert lib in_str from_ to_ mode =
      _iconvert lib in_str from_ to_ ICONV_REPLACE ∧
    (∀ cd input, (lib.step cd input (BUFSIZ - 1)).err = some IconvErrno.other →
      iconvIter lib cd input =
        ((lib.step cd input (BUFSIZ - 1)).out ++ ['?'],
         input.drop ((lib.step cd input (BUFSIZ - 1)).consumed + 1))) := by
  have hm : tocodeFor mode to_ = to_ := by
    simp [tocodeFor, if_neg h1, if_neg h2]
  have hr : tocodeFor ICONV_REPLACE to_ = to_ := by
    norm_num [tocodeFor, ICONV_REPLACE, ICONV_TRANSLIT, ICONV_IGNORE]
  refine ⟨hm, ?_, ?_⟩
  · unfold _iconvert
    rw [hm, hr]
  · intro cd input herr
    simp [iconvIter, herr]

theorem iconvert_unknown_mode_defaults_to_replace_witness :
    (7 : Int) ≠ ICONV_TRANSLIT ∧ (7 : Int) ≠ ICONV_IGNORE ∧
    tocodeFor 7 "B" = "B" ∧
    _iconvert libId (some "ab") "A" "B" 7 =
      _iconvert libId (some "ab") "A" "B" ICONV_REPLACE :=
  ⟨by decide, by decide,
   (iconvert_unknown_mode_defaults_to_replace libId (some "ab") "A" "B" 7
      (by decide) (by decide)).1,
   (iconvert_unknown_mode_defaults_to_replace libId (some "ab") "A" "B" 7
      (by decide) (by decide)).2.1⟩

/-- C4: the output accumulator of `_iconvert` starts at allocated size 1
holding no content, and each append reallocates it to exactly
`old content length + chunk length + 1` bytes; hence at every observation
point of the conversion loop the allocated size is exactly the content
length plus one (the NUL terminator), never more. -/
theorem iconvert_output_accumulator_invariant (lib : IconvLib)
    (cd : String × String) :
    GrowBuf.init.size = 1 ∧ GrowBuf.init.content = [] ∧
    (∀ (b : GrowBuf) (chunk : List Char), b.size = b.content.length + 1 →
      (b.append chunk).size = b.content.length + chunk.length + 1 ∧
      (b.append chunk).size = (b.append chunk).content.length + 1) ∧
    (∀ (fuel : Nat) (input : List Char) (b : GrowBuf),
      b.size = b.content.length + 1 →
      (iconvLoop lib cd fuel b input).1.size =
        (iconvLoop lib cd fuel b input).1.content.length + 1) := by
  refine ⟨rfl, rfl, ?_, ?_⟩
  · intro b chunk h
    refine ⟨?_, growBuf_append_inv b chunk h⟩
    simp [GrowBuf.append, h]
    omega
  · intro fuel
    induction fuel with
    | zero => intro input b h; exact h
    | succ n ih =>
      intro input b h
      cases input with
      | nil => exact h
      | cons c rest =>
        simpa [iconvLoop] using
          ih (iconvIter lib cd (c :: rest)).2 _ (growBuf_append_inv b _ h)

theorem iconvert_output_accumulator_invariant_witness :
    (GrowBuf.mk ['x'] 2).size = (GrowBuf.mk ['x'] 2).content.length + 1 ∧
    ((GrowBuf.mk ['x'] 2).append ['y', 'z']).size = 1 + 2 + 1 ∧
    (iconvLoop libId ("", "") 2 (GrowBuf.mk ['x'] 2) ['a', 'b']).1.size =
      (iconvLoop libId ("", "") 2 (GrowBuf.mk ['x'] 2) ['a', 'b']).1.content.length
        + 1 :=
  ⟨by decide,
   ((iconvert_output_accumulator_invariant libId ("", "")).2.2.1
      (GrowBuf.mk ['x'] 2) ['y', 'z'] (by decide)).1,
   (iconvert_output_accumulator_invariant libId ("", "")).2.2.2
      2 ['a', 'b'] (GrowBuf.mk ['x'] 2) (by decide)⟩

/-- C3: under the POSIX iconv contract (`GoodIconv`), each iteration of
the conversion loop either succeeds consuming the remaining input, hits
`E2BIG` and simply continues with the remaining input, or — on any other
converter error — writes a single literal question mark into the chunk
and advances the input cursor by exactly one unit; the unconsumed-input
length strictly decreases across iterations, so fuel `input.length`
suffices and the loop exits with no input units remaining. -/
theorem iconvert_loop_progress_terminates (lib : IconvLib)
    (hg : GoodIconv lib) (cd : String × String) :
    (∀ input : List Char, input ≠ [] →
      (iconvIter lib cd input).2.length < input.length) ∧
    (∀ input : List Char, (lib.step cd input (BUFSIZ - 1)).err = none →
      iconvIter lib cd input = ((lib.step cd input (BUFSIZ - 1)).out, [])) ∧
    (∀ input : List Char,
      (lib.step cd input (BUFSIZ - 1)).err = some IconvErrno.e2big →
      iconvIter lib cd input = ((lib.step cd input (BUFSIZ - 1)).out,
        input.drop (lib.step cd input (BUFSIZ - 1)).consumed)) ∧
    (∀ input : List Char,
      (lib.step cd input (BUFSIZ - 1)).err = some IconvErrno.other →
      iconvIter lib cd input = ((lib.step cd input (BUFSIZ - 1)).out ++ ['?'],
        input.drop ((lib.step cd input (BUFSIZ - 1)).consumed + 1))) ∧
    (∀ (fuel : Nat) (out : GrowBuf) (input : List Char),
      input.length ≤ fuel → (iconvLoop lib cd fuel out input).2 = []) := by
  have hdec : ∀ input : List Char, input ≠ [] →
      (iconvIter lib cd input).2.length < input.length := by
    intro input hne
    have hpos : 0 < input.length := List.length_pos.mpr hne
    unfold iconvIter
    rcases herr : (lib.step cd input (BUFSIZ - 1)).err with _ | e
    · have hall := hg.success_all cd input (BUFSIZ - 1) herr
      simp [herr, hall, List.drop_length, hpos]
    · cases e with
      | e2big =>
        have hprog := hg.e2big_progress cd input (BUFSIZ - 1) hne herr
        simp only [herr, List.length_drop]
        omega
      | other =>
        simp only [herr, List.length_drop]
        omega
  refine ⟨hdec, ?_, ?_, ?_, ?_⟩
  · intro input herr
    have hall := hg.success_all cd input (BUFSIZ - 1) herr
    simp [iconvIter, herr, hall, List.drop_length]
  · intro input herr
    simp [iconvIter, herr]
  · intro input herr
    simp [iconvIter, herr]
  · intro fuel
    induction fuel with
    | zero =>
      intro out input hle
      have : input = [] := List.length_eq_zero.mp (Nat.le_zero.mp hle)
      simp [iconvLoop, this]
    | succ n ih =>
      intro out input hle
      cases input with
      | nil => simp [iconvLoop]
      | cons c rest =>
        have hlt := hdec (c :: rest) (by simp)
        simpa [iconvLoop] using
          ih (out.append (iconvIter lib cd (c :: rest)).1)
             (iconvIter lib cd (c :: rest)).2 (by omega)

theorem iconvert_loop_progress_terminates_witness :
    (['a', 'b'] : List Char).length ≤ 2 ∧
    (iconvLoop libId ("", "") 2 GrowBuf.init ['a', 'b']).2 = [] ∧
    (iconvIter libId ("", "") ['a', 'b']).2.length < 2 :=
  ⟨by decide,
   (iconvert_loop_progress_terminates libId goodIconv_libId ("", "")).2.2.2.2
      2 GrowBuf.init ['a', 'b'] (by decide),
   (iconvert_loop_progress_terminates libId goodIconv_libId ("", "")).1
      ['a', 'b'] (by decide)⟩

theorem shellquoteLoop_full (l : List Char) :
    ∀ avail : Nat, (specQuote l).length + 2 ≤ avail →
    shellquoteLoop l avail = specQuote l := by
  induction l with
  | nil => intro avail _; rfl
  | cons c r ih =>
    intro avail hle
    by_cases hc : c = '\'' ∨ c = '\\'
    · have hw : (specQuote (c :: r)).length = (specQuote r).length + 2 := by
        simp [specQuote, hc]
      rw [hw] at hle
      have hgt : avail > 2 := by omega
      simp only [shellquoteLoop, if_pos hgt, if_pos hc, specQuote, hc, ite_true]
      rw [ih (avail - 2) (by omega)]
    · have hw : (specQuote (c :: r)).length = (specQuote r).length + 1 := by
        simp [specQuote, hc]
      rw [hw] at hle
      have hgt : avail > 2 := by omega
      simp only [shellquoteLoop, if_pos hgt, if_neg hc, specQuote, ite_false]
      rw [ih (avail - 1) (by omega)]

theorem shellquoteLoop_length_le (l : List Char) :
    ∀ avail : Nat, (shellquoteLoop l avail).length ≤ avail - 1 := by
  induction l with
  | nil => intro avail; simp [shellquoteLoop]
  | cons c r ih =>
    intro avail
    by_cases hgt : avail > 2
    · by_cases hc : c = '\'' ∨ c = '\\'
      · simp only [shellquoteLoop, if_pos hgt, if_pos hc]
        have := ih (avail - 2)
        simp only [List.length_cons]
        omega
      · simp only [shellquoteLoop, if_pos hgt, if_neg hc]
        have := ih (avail - 1)
        simp only [List.length_cons]
        omega
    · simp [shellquoteLoop, hgt]

theorem specQuote_replicate_a (n : Nat) :
    specQuote (List.replicate n 'a') = List.replicate n 'a' := by
  induction n with
  | zero => rfl
  | succ k ih => simp [List.replicate, specQuote, ih]

/-- C7, counterexample: an input of 8192 bytes — beyond the 8191-byte
`SHELLQUOTE_INLEN_MAX` — is NOT truncated by `util_shellquote`: all 8192
input bytes appear in the output, because the copy loop stops only when
the remaining output capacity (here 16383) falls to 2, not when 8191
input bytes have been consumed. -/
theorem shellquote_not_truncated_beyond_8191 :
    (String.mk (List.replicate 8192 'a')).length = 8192 ∧
    8191 < (String.mk (List.replicate 8192 'a')).length ∧
    util_shellquote (String.mk (List.replicate 8192 'a')) =
      String.mk ('\'' :: (List.replicate 8192 'a' ++ ['\''])) := by
  have hlen : (String.mk (List.replicate 8192 'a')).length = 8192 := by
    show (List.replicate 8192 'a').length = 8192
    rw [List.length_replicate]
  refine ⟨hlen, by omega, ?_⟩
  have htl : (String.mk (List.replicate 8192 'a')).toList =
      List.replicate 8192 'a' := rfl
  unfold util_shellquote
  rw [htl, List.length_replicate]
  have hcap : (if 8192 > SHELLQUOTE_INLEN_MAX then SHELLQUOTE_INLEN_MAX
      else 8192) * 2 + 2 - 1 = 16383 := by
    norm_num [SHELLQUOTE_INLEN_MAX]
  rw [hcap]
  have hloop := shellquoteLoop_full (List.replicate 8192 'a') 16383
    (by rw [specQuote_replicate_a 8192, List.length_replicate]; omega)
  rw [hloop, specQuote_replicate_a 8192, List.cons_append]

/-- C7, amended: `util_shellquote` wraps the input in single quotes and
escapes every embedded single quote or backslash with a backslash, the
output buffer is sized `min(len(input), 8191) * 2 + 3` bytes and the
output always fits in it, and `shell_quote` of `it's` is `'it\'s'`
exactly; but truncation is governed by the remaining output capacity
(copying stops when it falls to 2), not by the 8191-byte input figure:
the whole input is quoted whenever its escaped length is at most the
initial capacity minus 2. -/
theorem shellquote_quotes_and_caps_by_capacity (s : String) :
    ((specQuote s.toList).length + 2 ≤
        (if s.toList.length > SHELLQUOTE_INLEN_MAX then SHELLQUOTE_INLEN_MAX
         else s.toList.length) * 2 + 1 →
      util_shellquote s = String.mk ('\'' :: (specQuote s.toList ++ ['\'']))) ∧
    (util_shellquote s).length < shellquoteBufSize s ∧
    util_shellquote (String.mk ['i', 't', '\'', 's']) =
      String.mk ['\'', 'i', 't', '\\', '\'', 's', '\''] := by
  refine ⟨?_, ?_, by decide⟩
  · intro hcap
    unfold util_shellquote
    rw [shellquoteLoop_full s.toList
      ((if s.toList.length > SHELLQUOTE_INLEN_MAX then SHELLQUOTE_INLEN_MAX
        else s.toList.length) * 2 + 2 - 1) (by omega)]
    simp
  · have hll := shellquoteLoop_length_le s.toList
      ((if s.toList.length > SHELLQUOTE_INLEN_MAX then SHELLQUOTE_INLEN_MAX
        else s.toList.length) * 2 + 2 - 1)
    show ('\'' :: (shellquoteLoop s.toList
      ((if s.toList.length > SHELLQUOTE_INLEN_MAX then SHELLQUOTE_INLEN_MAX
        else s.toList.length) * 2 + 2 - 1) ++ ['\''])).length < shellquoteBufSize s
    simp only [List.length_cons, List.length_append, List.length_singleton,
      List.length_nil, shellquoteBufSize]
    omega

theorem shellquote_quotes_and_caps_by_capacity_witness :
    ((specQuote "ab".toList).length + 2 ≤
        (if "ab".toList.length > SHELLQUOTE_INLEN_MAX then SHELLQUOTE_INLEN_MAX
         else "ab".toList.length) * 2 + 1) ∧
    util_shellquote "ab" = String.mk ('\'' :: (specQuote "ab".toList ++ ['\''])) ∧
    (util_shellquote "ab").length < shellquoteBufSize "ab" :=
  ⟨by decide,
   (shellquote_quotes_and_caps_by_capacity "ab").1 (by decide),
   (shellquote_quotes_and_caps_by_capacity "ab").2.1⟩

theorem strlcatL_no_trunc (dst src : List Char) (siz : Nat)
    (h : src.length ≤ siz - 1 - dst.length) : strlcatL dst src siz = dst ++ src := by
  unfold strlcatL
  rw [List.take_of_length_le h]

theorem strstrIdx_le (hay need : List Char) (i : Nat)
    (h : strstrIdx hay need = some i) : i ≤ hay.length := by
  have hmem := List.mem_of_find?_eq_some h
  have := List.mem_range.mp hmem
  omega

theorem string_mk_append (a b : List Char) :
    String.mk a ++ String.mk b = String.mk (a ++ b) := rfl

theorem string_mk_append3 (a b c : List Char) :
    String.mk a ++ String.mk b ++ String.mk c = String.mk ((a ++ b) ++ c) := rfl

theorem string_toList_mk (l : List Char) : (String.mk l).toList = l := rfl

/-- C8: `util_replacestring` replaces only the first occurrence of the
needle: if `from_` occurs first at index `i` in `source`, the result is
the prefix before `i`, then the shell-quoted replacement, then the suffix
after the occurrence; if `from_` does not occur, the result is `source`
unchanged (the replacement value is shell-quoted by the function in both
cases — `util_replacestring` computes `util_shellquote to_` before
looking for the needle).  Concretely,
`replace_first("foo {X} bar", "{X}", "it's")` yields `"foo 'it\'s' bar"`. -/
theorem replacestring_replaces_first_occurrence (source from_ to_ : String) :
    (∀ i, strstrIdx source.toList from_.toList = some i →
      util_replacestring source from_ to_ =
        String.mk (source.toList.take i) ++ util_shellquote to_ ++
          String.mk (source.toList.drop (i + from_.toList.length))) ∧
    (strstrIdx source.toList from_.toList = none →
      util_replacestring source from_ to_ = source) ∧
    util_replacestring "foo {X} bar" "{X}" (String.mk ['i', 't', '\'', 's']) =
      String.mk ("foo ".toList ++
        ('\'' :: 'i' :: 't' :: '\\' :: '\'' :: 's' :: '\'' :: []) ++
        " bar".toList) := by
  refine ⟨?_, ?_, by decide⟩
  · intro i hi
    have hile : i ≤ source.toList.length := strstrIdx_le _ _ i hi
    simp only [util_replacestring, hi]
    rw [strncatL, List.nil_append]
    have hlen_take : (source.toList.take i).length = i := by
      rw [List.length_take]
      omega
    rw [strlcatL_no_trunc (List.take i source.toList)
      (util_shellquote to_).toList
      (source.toList.length + (util_shellquote to_).toList.length + 1)
      (by rw [hlen_take]; omega)]
    rw [strlcatL_no_trunc
      (List.take i source.toList ++ (util_shellquote to_).toList)
      (source.toList.drop (i + from_.toList.length))
      (source.toList.length + (util_shellquote to_).toList.length + 1)
      (by
        simp only [List.length_append, hlen_take, List.length_drop]
        omega)]
    rcases hsq : util_shellquote to_ with ⟨ql⟩
    rw [string_toList_mk ql, string_mk_append3]
  · intro hnone
    simp only [util_replacestring, hnone]
    rw [strlcatL_no_trunc [] source.toList
      (source.toList.length + (util_shellquote to_).toList.length + 1)
      (by simp only [List.length_nil]; omega)]
    rfl

theorem replacestring_replaces_first_occurrence_witness :
    strstrIdx "axb".toList "x".toList = some 1 ∧
    util_replacestring "axb" "x" "y" =
      String.mk ("axb".toList.take 1) ++ util_shellquote "y" ++
        String.mk ("axb".toList.drop (1 + "x".toList.length)) ∧
    strstrIdx "ab".toList "x".toList = none ∧
    util_replacestring "ab" "x" "y" = "ab" :=
  ⟨by decide,
   (replacestring_replaces_first_occurrence "axb" "x" "y").1 1 (by decide),
   by decide,
   (replacestring_replaces_first_occurrence "ab" "x" "y").2.1 (by decide)⟩

/-- C5: `util_urlparse` fails exactly in the cases the spec names, checked
in this order — `InvalidScheme` (no "http://" at the start), `MissingPort`
(no `:` after the scheme), `MissingHost` (empty host segment),
`MalformedMount` (no `/` after the port segment, or port text longer than
5 characters), `InvalidPort` (port text not an integer in `[1, 65535]`) —
each with its specific diagnostic; otherwise it succeeds and stores the
host (text between "http://" and the first `:`), the numeric port, and
the mount including the leading `/` up to the end of the string. -/
theorem urlparse_matches_spec (url : String) (out0 : UrlOut) :
    (urlparseSpec url = Except.error UrlErr.InvalidScheme →
      util_urlparse url out0 =
        (0, out0, ["invalid <url>: not an HTTP address"])) ∧
    (urlparseSpec url = Except.error UrlErr.MissingPort →
      util_urlparse url out0 = (0, out0, ["invalid <url>: missing port"])) ∧
    (urlparseSpec url = Except.error UrlErr.MissingHost →
      util_urlparse url out0 = (0, out0, ["invalid <url>: missing host"])) ∧
    (urlparseSpec url = Except.error UrlErr.MalformedMount →
      util_urlparse url out0 = (0, { out0 with hostname := none },
        ["invalid <url>: mountpoint missing, or port number too long"])) ∧
    (urlparseSpec url = Except.error UrlErr.InvalidPort →
      (util_urlparse url out0).1 = 0 ∧
      (util_urlparse url out0).2.1 =
        { out0 with hostname := none, port := some 0 } ∧
      ∃ t e, (util_urlparse url out0).2.2 =
        ["invalid <url>: port: " ++ t ++ " is " ++ e]) ∧
    (∀ h p m, urlparseSpec url = Except.ok (h, p, m) →
      util_urlparse url out0 =
        (1, { hostname := some h, port := some p, mountname := some m }, [])) := by
  by_cases hs : ['h', 't', 't', 'p', ':', '/', '/'] <+: url.data
  case neg => simp [urlparseSpec, util_urlparse, hs]
  case pos =>
    rcases hc : strchrIdx (List.drop 7 url.data) ':' with _ | i
    · simp [urlparseSpec, util_urlparse, hs, hc]
    · by_cases hi : i = 0
      · simp [urlparseSpec, util_urlparse, hs, hc, hi]
      · rcases hm : strchrIdx (List.drop (7 + (i + 1)) url.data) '/' with _ | j
        · simp [urlparseSpec, util_urlparse, hs, hc, hi, hm]
        · by_cases hj : 6 ≤ j
          · simp [urlparseSpec, util_urlparse, hs, hc, hi, hm, hj]
          · rcases hp : strtonum
                (String.mk (List.take j (List.drop (7 + (i + 1)) url.data)))
                1 65535 with e | v
            · simp [urlparseSpec, util_urlparse, strtonumRet, hs, hc, hi, hm, hj, hp]
              exact ⟨_, _, rfl⟩
            · simp [urlparseSpec, util_urlparse, strtonumRet, hs, hc, hi, hm, hj, hp]

theorem urlparse_matches_spec_witness :
    urlparseSpec "http://host.example:8000/mount" =
      Except.ok ("host.example", 8000, "/mount") ∧
    util_urlparse "http://host.example:8000/mount" ⟨none, none, none⟩ =
      (1, { hostname := some "host.example", port := some 8000,
            mountname := some "/mount" }, []) ∧
    urlparseSpec "ftp://host:8000/mount" = Except.error UrlErr.InvalidScheme ∧
    util_urlparse "ftp://host:8000/mount" ⟨none, none, none⟩ =
      (0, ⟨none, none, none⟩, ["invalid <url>: not an HTTP address"]) ∧
    urlparseSpec "http://host:99999/mount" = Except.error UrlErr.InvalidPort ∧
    urlparseSpec "http://host:8000" = Except.error UrlErr.MalformedMount :=
  ⟨rfl,
   (urlparse_matches_spec "http://host.example:8000/mount" ⟨none, none, none⟩).2.2.2.2.2
      "host.example" 8000 "/mount" rfl,
   rfl,
   (urlparse_matches_spec "ftp://host:8000/mount" ⟨none, none, none⟩).1 rfl,
   rfl,
   rfl⟩

/-- C6, counterexample: the claim says that after a failed parse none of
the caller-supplied output locations holds a result of the failed parse;
but on the invalid-port input "http://host:99999/mount" the parse fails
(returns 0) and the caller's port location — holding 8000 before the
call — now holds 0, the value `*port = (unsigned short)strtonum(...)`
(util.c line 375) wrote before the `errstr` check. -/
theorem urlparse_invalid_port_overwrites_port_location :
    (util_urlparse "http://host:99999/mount" ⟨none, some 8000, none⟩).1 = 0 ∧
    (util_urlparse "http://host:99999/mount" ⟨none, some 8000, none⟩).2.1.port
      = some 0 ∧
    ¬ (util_urlparse "http://host:99999/mount" ⟨none, some 8000, none⟩).2.1.port
      = (some 8000 : Option Nat) := by
  refine ⟨by decide, by decide, by decide⟩

/-- C6, amended: whenever `util_urlparse` fails (returns 0), it emits
exactly one diagnostic and returns no partial parse: the hostname
location either still has its pre-call value or holds no live allocation
(the partially parsed host was freed), the mountname location is
untouched, and the port location is either untouched or — only on the
invalid-port path — overwritten with 0, the error return of `strtonum`
(util.c line 375), never with a successfully parsed port value. -/
theorem urlparse_failure_no_partial_output (url : String) (out0 : UrlOut)
    (h : (util_urlparse url out0).1 = 0) :
    ((util_urlparse url out0).2.1.hostname = out0.hostname ∨
      (util_urlparse url out0).2.1.hostname = none) ∧
    ((util_urlparse url out0).2.1.port = out0.port ∨
      (util_urlparse url out0).2.1.port = some 0) ∧
    (util_urlparse url out0).2.1.mountname = out0.mountname ∧
    (util_urlparse url out0).2.2.length = 1 := by
  by_cases hs : ['h', 't', 't', 'p', ':', '/', '/'] <+: url.data
  case neg => simp [util_urlparse, hs]
  case pos =>
    rcases hc : strchrIdx (List.drop 7 url.data) ':' with _ | i
    · simp [util_urlparse, hs, hc]
    · by_cases hi : i = 0
      · simp [util_urlparse, hs, hc, hi]
      · rcases hm : strchrIdx (List.drop (7 + (i + 1)) url.data) '/' with _ | j
        · simp [util_urlparse, hs, hc, hi, hm]
        · by_cases hj : 6 ≤ j
          · simp [util_urlparse, hs, hc, hi, hm, hj]
          · rcases hp : strtonum
                (String.mk (List.take j (List.drop (7 + (i + 1)) url.data)))
                1 65535 with e | v
            · simp [util_urlparse, strtonumRet, hs, hc, hi, hm, hj, hp]
            · simp [util_urlparse, strtonumRet, hs, hc, hi, hm, hj, hp] at h

theorem urlparse_failure_no_partial_output_witness :
    (util_urlparse "http://host:8000" ⟨some "old", some 1, some "/old"⟩).1 = 0 ∧
    ((util_urlparse "http://host:8000" ⟨some "old", some 1, some "/old"⟩).2.1.hostname
        = some "old" ∨
      (util_urlparse "http://host:8000" ⟨some "old", some 1, some "/old"⟩).2.1.hostname
        = none) ∧
    ((util_urlparse "http://host:8000" ⟨some "old", some 1, some "/old"⟩).2.1.port
        = some 1 ∨
      (util_urlparse "http://host:8000" ⟨some "old", some 1, some "/old"⟩).2.1.port
        = some 0) ∧
    (util_urlparse "http://host:8000" ⟨some "old", some 1, some "/old"⟩).2.1.mountname
      = some "/old" :=
  ⟨by decide,
   (urlparse_failure_no_partial_output "http://host:8000"
      ⟨some "old", some 1, some "/old"⟩ (by decide)).1,
   (urlparse_failure_no_partial_output "http://host:8000"
      ⟨some "old", some 1, some "/old"⟩ (by decide)).2.1,
   (urlparse_failure_no_partial_output "http://host:8000"
      ⟨some "old", some 1, some "/old"⟩ (by decide)).2.2.1⟩

theorem fsGet_del_self (fs : List (String × String)) (p : String) :
    fsGet (fsDel fs p) p = none := by
  induction fs with
  | nil => rfl
  | cons e rest ih =>
    by_cases he : e.1 = p
    · simpa [fsDel, he] using ih
    · simpa [fsGet, fsDel, he] using ih

theorem fsGet_del_other (fs : List (String × String)) (p q : String)
    (h : ¬ q = p) : fsGet (fsDel fs p) q = fsGet fs q := by
  have hpq : ¬ p = q := fun k => h k.symm
  induction fs with
  | nil => rfl
  | cons e rest ih =>
    by_cases he : e.1 = p
    · simpa [fsDel, fsGet, he, hpq] using ih
    · by_cases hq : e.1 = q
      · simp [fsDel, fsGet, he, hq, h]
      · simpa [fsDel, fsGet, he, hq] using ih

theorem fsGet_set_self (fs : List (String × String)) (p v : String) :
    fsGet (fsSet fs p v) p = some v := by
  simp [fsGet, fsSet]

theorem fsGet_set_other (fs : List (String × String)) (p q v : String)
    (h : ¬ q = p) : fsGet (fsSet fs p v) q = fsGet fs q := by
  have hne : ¬ p = q := fun hpq => h hpq.symm
  simp only [fsSet, fsGet, hne, if_false, ite_false]
  exact fsGet_del_other fs p q h

/-- C9: for two successful `util_write_pid_file` calls with paths `P` then
`Q` in one process, the second call does not remove `P`'s file (it still
holds the process id) but makes `Q` the currently-owned pid-file; the exit
hook was registered only by the first successful write (`hooks` stays 1),
the recorded owner pid is the one from the first successful write, and
`_cleanup_pidfile` unlinks exactly the currently-owned file `Q` (leaving
`P`, closing the handle) — and only when the cleaning process id equals
the recorded one; a different process id cleans up nothing. -/
theorem pidfile_second_write_supersedes_cleanup_guarded
    (st0 st1 st2 : PidState) (pid pid2 : Nat) (P Q : String)
    (hlocks : st0.pidfile_numlocks = 0) (hhooks : st0.hooks = 0)
    (hPQ : ¬ P = Q)
    (h1 : util_write_pid_file st0 pid (some P) true true true = (st1, 0))
    (h2 : util_write_pid_file st1 pid (some Q) true true true = (st2, 0)) :
    fsGet st2.fs P = some (toString pid ++ "\n") ∧
    st2.pidfile_path = some Q ∧
    st2.hooks = 1 ∧
    st2.pidfile_pid = pid ∧
    (_cleanup_pidfile st2 pid).2 = some Q ∧
    fsGet (_cleanup_pidfile st2 pid).1.fs Q = none ∧
    fsGet (_cleanup_pidfile st2 pid).1.fs P = some (toString pid ++ "\n") ∧
    (_cleanup_pidfile st2 pid).1.pidfile_file = none ∧
    (¬ pid2 = pid → _cleanup_pidfile st2 pid2 = (st2, none)) := by
  obtain ⟨fs0, path0, file0, pid0, locks0, hooks0⟩ := st0
  simp only at hlocks hhooks
  subst hlocks hhooks
  simp [util_write_pid_file] at h1
  subst h1
  simp [util_write_pid_file] at h2
  subst h2
  refine ⟨?_, rfl, rfl, rfl, ?_, ?_, ?_, ?_, ?_⟩
  · rw [fsGet_set_other _ _ _ _ hPQ, fsGet_set_other _ _ _ _ hPQ,
      fsGet_set_self]
  · simp [_cleanup_pidfile]
  · simp [_cleanup_pidfile, fsGet_del_self]
  · simp only [_cleanup_pidfile, if_true, eq_self_iff_true]
    show fsGet (fsDel _ Q) P = _
    rw [fsGet_del_other _ _ _ hPQ, fsGet_set_other _ _ _ _ hPQ,
      fsGet_set_other _ _ _ _ hPQ, fsGet_set_self]
  · simp [_cleanup_pidfile]
  · intro hne
    simp [_cleanup_pidfile, hne]

theorem pidfile_second_write_supersedes_cleanup_guarded_witness :
    util_write_pid_file ⟨[], none, none, 0, 0, 0⟩ 42 (some "P") true true true =
      (⟨[("P", toString 42 ++ "\n")], some "P", some "P", 42, 1, 1⟩, 0) ∧
    util_write_pid_file
        ⟨[("P", toString 42 ++ "\n")], some "P", some "P", 42, 1, 1⟩
        42 (some "Q") true true true =
      (⟨[("Q", toString 42 ++ "\n"), ("P", toString 42 ++ "\n")],
        some "Q", some "Q", 42, 1, 1⟩, 0) ∧
    fsGet [("Q", toString 42 ++ "\n"), ("P", toString 42 ++ "\n")] "P" =
      some (toString 42 ++ "\n") ∧
    (_cleanup_pidfile
        ⟨[("Q", toString 42 ++ "\n"), ("P", toString 42 ++ "\n")],
          some "Q", some "Q", 42, 1, 1⟩ 42).2 = some "Q" ∧
    fsGet (_cleanup_pidfile
        ⟨[("Q", toString 42 ++ "\n"), ("P", toString 42 ++ "\n")],
          some "Q", some "Q", 42, 1, 1⟩ 42).1.fs "Q" = none ∧
    _cleanup_pidfile
        ⟨[("Q", toString 42 ++ "\n"), ("P", toString 42 ++ "\n")],
          some "Q", some "Q", 42, 1, 1⟩ 7 =
      (⟨[("Q", toString 42 ++ "\n"), ("P", toString 42 ++ "\n")],
        some "Q", some "Q", 42, 1, 1⟩, none) := by
  have happ := pidfile_second_write_supersedes_cleanup_guarded
    ⟨[], none, none, 0, 0, 0⟩
    ⟨[("P", toString 42 ++ "\n")], some "P", some "P", 42, 1, 1⟩
    ⟨[("Q", toString 42 ++ "\n"), ("P", toString 42 ++ "\n")],
      some "Q", some "Q", 42, 1, 1⟩
    42 7 "P" "Q" rfl rfl (by decide) (by decide) (by decide)
  exact ⟨by decide, by decide, happ.1, happ.2.2.2.2.1, happ.2.2.2.2.2.1,
    happ.2.2.2.2.2.2.2.2 (by decide)⟩

end Ezstream
